import Mathlib

/-!
Verification of the core infrastructure of the fact-checker repository:
the TTL cache (src/utils/cache.ts), the retry-with-exponential-backoff
executor (src/utils/retry.ts) and the sliding-window rate limiter
(src/app/api/fact-check/route.ts).  Times and timestamps are modelled as
integers (milliseconds); the map data structures are modelled as functions
from string keys to optional values, matching the JS `Map` semantics used
by the source.
-/

namespace FactChecker

/-! The TTL cache, from src/utils/cache.ts -/

/-- A cache entry as stored by `Cache.set`: the value together with the
`Date.now()` timestamp at insertion. -/
structure CacheEntry (T : Type) where
  value : T
  timestamp : ℤ

/-- The `Cache<T>` class state: the underlying `Map<string, CacheEntry<T>>`
and the TTL in milliseconds. -/
structure Cache (T : Type) where
  cache : String → Option (CacheEntry T)
  ttl : ℤ

/-- `new Cache(ttlMinutes)`: empty map, TTL converted to milliseconds. -/
def Cache.init (T : Type) (ttlMinutes : ℤ) : Cache T :=
  ⟨fun _ => none, ttlMinutes * 60 * 1000⟩

/-- `Cache.set(key, value)`: stores the value stamped with the current
time, unconditionally overwriting any existing entry. -/
def Cache.set {T : Type} (c : Cache T) (now : ℤ) (key : String) (value : T) : Cache T :=
  ⟨fun k => if k = key then some ⟨value, now⟩ else c.cache k, c.ttl⟩

/-- `Cache.get(key)`: returns the stored value unless the entry is absent
or expired (`Date.now() - entry.timestamp > this.ttl`); an expired entry
is deleted as a side effect.  Returns the value (or `none`) together with
the possibly-updated cache state. -/
def Cache.get {T : Type} (c : Cache T) (now : ℤ) (key : String) : Option T × Cache T :=
  match c.cache key with
  | none => (none, c)
  | some entry =>
    if c.ttl < now - entry.timestamp then
      (none, ⟨fun k => if k = key then none else c.cache k, c.ttl⟩)
    else
      (some entry.value, c)

/-- `Cache.clear()`: removes all entries unconditionally. -/
def Cache.clear {T : Type} (c : Cache T) : Cache T :=
  ⟨fun _ => none, c.ttl⟩

/-! The retry executor, from src/utils/retry.ts -/

/-- `RetryOptions`: `maxRetries` bounds the number of attempts (the for
loop runs while `attempt < maxRetries`, so a nonpositive value means no
attempt at all, hence the integer type); the delay parameters are in
milliseconds. -/
structure RetryOptions where
  maxRetries : ℤ
  initialDelay : ℕ
  maxDelay : ℕ
  backoffFactor : ℕ

/-- The default option values from the destructuring in `withRetry`:
`maxRetries = 3, initialDelay = 1000, maxDelay = 10000, backoffFactor = 2`. -/
def defaultRetryOptions : RetryOptions :=
  ⟨3, 1000, 10000, 2⟩

/-- The observable outcome of a `withRetry` execution: the settled result
(`Except.error none` models `throw null`, `Except.error (some e)` models
throwing error `e`), the delays awaited between attempts in order, and the
number of invocations of the wrapped action. -/
structure RetryTrace (ε α : Type) where
  result : Except (Option ε) α
  delays : List ℕ
  invocations : ℕ

/-- The body of `withRetry`'s for loop.  The asynchronous action is
modelled by its per-invocation outcome: `fn i` is what the `i`-th call
(0-indexed) settles to.  `remaining = maxRetries - attempt` counts the
iterations left; `delay` and `lastError` are the loop-carried mutable
variables of the source. -/
def retryLoop {ε α : Type} (fn : ℕ → Except ε α) (maxDelay backoffFactor : ℕ) :
    ℕ → ℕ → ℕ → Option ε → RetryTrace ε α
  | 0, _, _, lastError => ⟨Except.error lastError, [], 0⟩
  | remaining + 1, attempt, delay, _ =>
    match fn attempt with
    | Except.ok a => ⟨Except.ok a, [], 1⟩
    | Except.error e =>
      match remaining with
      | 0 => ⟨Except.error (some e), [], 1⟩
      | r + 1 =>
        let rest := retryLoop fn maxDelay backoffFactor (r + 1) (attempt + 1)
          (min (delay * backoffFactor) maxDelay) (some e)
        ⟨rest.result, delay :: rest.delays, rest.invocations + 1⟩

/-- `withRetry(fn, options)`: run the loop from attempt 0 with
`delay = initialDelay` and `lastError = null`. -/
def withRetry {ε α : Type} (fn : ℕ → Except ε α) (opts : RetryOptions) : RetryTrace ε α :=
  retryLoop fn opts.maxDelay opts.backoffFactor opts.maxRetries.toNat 0 opts.initialDelay none

/-- The successive delay values carried by the loop: starting from `d`,
each later value is `min (previous * backoffFactor) maxDelay`. -/
def dSeq (maxDelay backoffFactor : ℕ) : ℕ → ℕ → List ℕ
  | _, 0 => []
  | d, r + 1 => d :: dSeq maxDelay backoffFactor (min (d * backoffFactor) maxDelay) r

/-! The rate limiter, from src/app/api/fact-check/route.ts -/

/-- `RATE_LIMIT_WINDOW = 60 * 1000` milliseconds. -/
def RATE_LIMIT_WINDOW : ℤ :=
  60 * 1000

/-- `MAX_REQUESTS_PER_WINDOW = 10`. -/
def MAX_REQUESTS_PER_WINDOW : ℕ :=
  10

/-- The `requestLog` map from identity to recorded timestamps; `none`
models an identity with no entry in the `Map`. -/
abbrev RequestLog : Type :=
  String → Option (List ℤ)

/-- `isRateLimited(ip)`: read the identity's timestamps (empty when
absent, as `requestLog.get(ip) || []`), prune to those strictly newer than
`now - RATE_LIMIT_WINDOW`, persist the pruned list, and report whether the
pruned count reaches `MAX_REQUESTS_PER_WINDOW`.  Returns the verdict
together with the updated log. -/
def isRateLimited (now : ℤ) (log : RequestLog) (ip : String) : Bool × RequestLog :=
  let requests := (log ip).getD []
  let recentRequests := requests.filter (fun time => decide (now - RATE_LIMIT_WINDOW < time))
  (decide (MAX_REQUESTS_PER_WINDOW ≤ recentRequests.length),
   fun k => if k = ip then some recentRequests else log k)

/-- The caller's logging step in `POST` (route.ts lines 100–103): read the
identity's timestamps, push the current time, store the list back.  This
is the separate, caller-driven recording operation. -/
def recordRequest (now : ℤ) (log : RequestLog) (ip : String) : RequestLog :=
  fun k => if k = ip then some ((log ip).getD [] ++ [now]) else log k

/-- A fixed concrete cache key used by closed witness theorems. -/
def kKey : String :=
  "k"

/-- A fixed concrete client identity used by closed witness theorems. -/
def ipA : String :=
  "a"

/-- A second, distinct concrete client identity for witness theorems. -/
def ipB : String :=
  "b"

/-- A concrete request log holding three timestamps for `ipA`, used by
closed witness theorems. -/
def logA : RequestLog :=
  fun k => if k = ipA then some [1, 2, 3] else none

/-- The empty request log. -/
def emptyLog : RequestLog :=
  fun _ => none

/-- A concrete request log holding ten timestamps for `ipA`, all within
the minute before time 100000, used by closed witness theorems. -/
def logTen : RequestLog :=
  fun k =>
    if k = ipA then some [41000, 42000, 43000, 44000, 45000, 46000, 47000, 48000, 49000, 50000]
    else none

end FactChecker

namespace FactChecker

/-- Clamping before multiplying then clamping again is the same as
multiplying then clamping once: `min (min x M * c) M = min (x * c) M`. -/
lemma min_mul_min (x M c : ℕ) : min (min x M * c) M = min (x * c) M := by
  rcases Nat.eq_zero_or_pos c with hc | hc
  · subst hc; simp
  · rcases le_total x M with h | h
    · rw [min_eq_left h]
    · have hM : M ≤ M * c := Nat.le_mul_of_pos_right M hc
      have hx : M ≤ x * c := le_trans hM (Nat.mul_le_mul_right c h)
      rw [min_eq_right h, min_eq_right hM, min_eq_right hx]

/-- Closed form of the delay sequence when the head is already clamped:
the `j`-th element is `min (x * backoffFactor ^ (j + 1)) maxDelay`. -/
lemma dSeq_clamped (M b : ℕ) :
    ∀ (r x : ℕ), dSeq M b (min (x * b) M) r =
      (List.range r).map (fun j => min (x * b ^ (j + 1)) M) := by
  intro r
  induction r with
  | zero => intro x; simp [dSeq]
  | succ r ih =>
    intro x
    rw [dSeq, min_mul_min, ih (x * b), List.range_succ_eq_map, List.map_cons, List.map_map]
    congr 1
    · congr 1
      ring
    · apply List.map_congr_left
      intro j hj
      simp only [Function.comp_apply, Nat.succ_eq_add_one]
      congr 1
      ring

/-- Closed form of the full delay sequence: the head is the unclamped
start value `d`, every later element is `min (d * backoffFactor ^ j)
maxDelay`. -/
lemma dSeq_eq_map (M b d r : ℕ) :
    dSeq M b d r =
      (List.range r).map (fun j => if j = 0 then d else min (d * b ^ j) M) := by
  cases r with
  | zero => simp [dSeq]
  | succ r =>
    rw [dSeq, dSeq_clamped, List.range_succ_eq_map, List.map_cons, List.map_map]
    exact rfl

/-- The delay sequence starting anywhere has as many elements as
requested. -/
lemma dSeq_length (M b : ℕ) : ∀ (r d : ℕ), (dSeq M b d r).length = r := by
  intro r
  induction r with
  | zero => intro d; simp [dSeq]
  | succ r ih => intro d; simp [dSeq, ih]

/-- Unfolding of the loop when no iterations remain: `throw lastError`. -/
lemma retryLoop_zero_def {ε α : Type} (fn : ℕ → Except ε α) (M b a d : ℕ) (e : Option ε) :
    retryLoop fn M b 0 a d e = ⟨Except.error e, [], 0⟩ :=
  rfl

/-- One-step unfolding of the loop when the current attempt succeeds. -/
lemma retryLoop_ok {ε α : Type} (fn : ℕ → Except ε α) (M b r a d : ℕ) (e : Option ε)
    (v : α) (hfa : fn a = Except.ok v) :
    retryLoop fn M b (r + 1) a d e = ⟨Except.ok v, [], 1⟩ := by
  conv_lhs => rw [retryLoop, hfa]

/-- One-step unfolding of the loop when the final permitted attempt
fails: the loop breaks and throws that error without waiting. -/
lemma retryLoop_err_last {ε α : Type} (fn : ℕ → Except ε α) (M b a d : ℕ) (e : Option ε)
    (er : ε) (hfa : fn a = Except.error er) :
    retryLoop fn M b (0 + 1) a d e = ⟨Except.error (some er), [], 1⟩ := by
  conv_lhs => rw [retryLoop, hfa]

/-- One-step unfolding of the loop when a non-final attempt fails: wait
the current delay, clamp the next one, and continue. -/
lemma retryLoop_err_cont {ε α : Type} (fn : ℕ → Except ε α) (M b r a d : ℕ) (e : Option ε)
    (er : ε) (hfa : fn a = Except.error er) :
    retryLoop fn M b (r + 1 + 1) a d e =
      ⟨(retryLoop fn M b (r + 1) (a + 1) (min (d * b) M) (some er)).result,
       d :: (retryLoop fn M b (r + 1) (a + 1) (min (d * b) M) (some er)).delays,
       (retryLoop fn M b (r + 1) (a + 1) (min (d * b) M) (some er)).invocations + 1⟩ := by
  conv_lhs => rw [retryLoop, hfa]

/-- On an always-failing action the loop performs all `r + 1` remaining
attempts, waits the `r` delays of `dSeq`, and ends with the error of the
last attempt. -/
lemma retryLoop_allFail {ε α : Type} (fn : ℕ → Except ε α) (es : ℕ → ε)
    (hf : ∀ i, fn i = Except.error (es i)) (M b : ℕ) :
    ∀ (r a d : ℕ) (e : Option ε), retryLoop fn M b (r + 1) a d e =
      ⟨Except.error (some (es (a + r))), dSeq M b d r, r + 1⟩ := by
  intro r
  induction r with
  | zero => intro a d e; rw [retryLoop_err_last fn M b a d e (es a) (hf a)]; exact rfl
  | succ r ih =>
    intro a d e
    have ha : a + 1 + r = a + (r + 1) := by omega
    rw [retryLoop_err_cont fn M b r a d e (es a) (hf a),
      ih (a + 1) (min (d * b) M) (some (es a)), ha]
    exact rfl

/-- If the action fails on the `m` attempts before attempt `a + m` and
succeeds there, and more than `m` iterations remain, the loop returns the
success value after `m + 1` invocations, waiting the `m` delays of
`dSeq`. -/
lemma retryLoop_succAt {ε α : Type} (fn : ℕ → Except ε α) (v : α) (M b : ℕ) :
    ∀ (m r a d : ℕ) (e : Option ε), m < r → fn (a + m) = Except.ok v →
      (∀ j, j < m → ∃ er, fn (a + j) = Except.error er) →
      retryLoop fn M b r a d e = ⟨Except.ok v, dSeq M b d m, m + 1⟩ := by
  intro m
  induction m with
  | zero =>
    intro r a d e hm hok _
    obtain ⟨r', rfl⟩ : ∃ r', r = r' + 1 := ⟨r - 1, by omega⟩
    rw [Nat.add_zero] at hok
    rw [retryLoop_ok fn M b r' a d e v hok]
    exact rfl
  | succ m ih =>
    intro r a d e hm hok hf
    obtain ⟨r', rfl⟩ : ∃ r', r = r' + 1 := ⟨r - 1, by omega⟩
    obtain ⟨r'', rfl⟩ : ∃ r'', r' = r'' + 1 := ⟨r' - 1, by omega⟩
    obtain ⟨er, her⟩ := hf 0 (by omega)
    rw [Nat.add_zero] at her
    have hok' : fn (a + 1 + m) = Except.ok v := by
      have : a + 1 + m = a + (m + 1) := by omega
      rw [this]; exact hok
    have hf' : ∀ j, j < m → ∃ er, fn (a + 1 + j) = Except.error er := by
      intro j hj
      have : a + 1 + j = a + (j + 1) := by omega
      rw [this]; exact hf (j + 1) (by omega)
    rw [retryLoop_err_cont fn M b r'' a d e er her,
      ih (r'' + 1) (a + 1) (min (d * b) M) (some er) (by omega) hok' hf']
    exact rfl

/-- Whenever the loop waits at least one delay, the first delay waited is
exactly the delay value it starts with. -/
lemma retryLoop_head {ε α : Type} (fn : ℕ → Except ε α) (M b : ℕ)
    (r a d : ℕ) (e : Option ε) :
    ((retryLoop fn M b r a d e).delays.head?).getD d = d := by
  cases r with
  | zero => rfl
  | succ r =>
    cases hfa : fn a with
    | ok v => rw [retryLoop_ok fn M b r a d e v hfa]; exact rfl
    | error er =>
      cases r with
      | zero => rw [retryLoop_err_last fn M b a d e er hfa]; exact rfl
      | succ r' => rw [retryLoop_err_cont fn M b r' a d e er hfa]; exact rfl

/-- Every delay the loop waits after the first is clamped by `maxDelay`. -/
lemma retryLoop_tail_le {ε α : Type} (fn : ℕ → Except ε α) (M b : ℕ) :
    ∀ (r a d : ℕ) (e : Option ε),
      ∀ x ∈ (retryLoop fn M b r a d e).delays.tail, x ≤ M := by
  intro r
  induction r with
  | zero => intro a d e x hx; simp [retryLoop_zero_def fn M b a d e] at hx
  | succ r ih =>
    intro a d e x hx
    cases hfa : fn a with
    | ok v => rw [retryLoop_ok fn M b r a d e v hfa] at hx; simp at hx
    | error er =>
      cases r with
      | zero => rw [retryLoop_err_last fn M b a d e er hfa] at hx; simp at hx
      | succ r' =>
        rw [retryLoop_err_cont fn M b r' a d e er hfa] at hx
        have hx' : x ∈ (retryLoop fn M b (r' + 1) (a + 1) (min (d * b) M) (some er)).delays :=
          hx
        cases hds : (retryLoop fn M b (r' + 1) (a + 1) (min (d * b) M) (some er)).delays with
        | nil => rw [hds] at hx'; simp at hx'
        | cons y ys =>
          have hy : y = min (d * b) M := by
            have hh := retryLoop_head fn M b (r' + 1) (a + 1) (min (d * b) M) (some er)
            rw [hds] at hh
            simpa using hh
          rw [hds] at hx'
          rcases List.mem_cons.mp hx' with hx'' | hx''
          · rw [hx'', hy]; exact min_le_right _ _
          · have hih := ih (a + 1) (min (d * b) M) (some er) x
            rw [hds] at hih
            exact hih (by simpa using hx'')

/-- C1: For every key `k` and value `v`, if `set(k, v)` is performed at time
`t`, then `get(k)` returns `v` at any time `t'` with `t' - t ≤ ttl`, and
returns absence at any time `t'` with `t' - t > ttl`. -/
theorem cache_ttl_invariant {T : Type} (c : Cache T) (t t' : ℤ) (k : String) (v : T) :
    ((c.set t k v).get t' k).1 = if t' - t ≤ c.ttl then some v else none := by
  simp only [Cache.set, Cache.get]
  by_cases h : t' - t ≤ c.ttl
  · simp [h, not_lt.mpr h]
  · simp [h, lt_of_not_le h]

/-- C7: `set(k, v1)` then `set(k, v2)` before expiry of the first entry
makes every subsequent `get(k)` return `v2`, with the TTL measured from the
time of the second `set`; the first entry's timestamp has no effect. -/
theorem cache_overwrite {T : Type} (c : Cache T) (t1 t2 t' : ℤ) (k : String) (v1 v2 : T)
    (hexp : t2 - t1 ≤ c.ttl) :
    (((c.set t1 k v1).set t2 k v2).get t' k).1 =
      if t' - t2 ≤ c.ttl then some v2 else none := by
  simp only [Cache.set, Cache.get]
  by_cases h : t' - t2 ≤ c.ttl
  · simp [h, not_lt.mpr h]
  · simp [h, lt_of_not_le h]

/-- Concrete instance of C7: overwrite at time 5 of an entry set at time 0
in a cache with TTL 60000 ms; a read at time 10 yields the second value and
a read at time 70000 yields absence. -/
theorem cache_overwrite_witness :
    ((((Cache.init ℕ 1).set 0 kKey 7).set 5 kKey 9).get 10 kKey).1 = some 9 ∧
    ((((Cache.init ℕ 1).set 0 kKey 7).set 5 kKey 9).get 70000 kKey).1 = none := by
  constructor
  · have h := cache_overwrite (Cache.init ℕ 1) 0 5 10 kKey 7 9 (by decide)
    simpa using h
  · have h := cache_overwrite (Cache.init ℕ 1) 0 5 70000 kKey 7 9 (by decide)
    simpa using h

/-- C9: after `clear()`, `get(k)` returns absence for every key `k`
(in particular every previously set key), until a new `set` occurs. -/
theorem cache_clear_absent {T : Type} (c : Cache T) (t : ℤ) (k : String) :
    ((c.clear).get t k).1 = none := by
  simp [Cache.clear, Cache.get]

/-- C2: an action failing on every attempt is invoked exactly
`maxRetries` times by `withRetry`; the delays between consecutive attempts
are `initialDelay, min (initialDelay * backoffFactor) maxDelay,
min (initialDelay * backoffFactor ^ 2) maxDelay, …`, with no delay after
the final attempt (so there are `maxRetries - 1` of them); and the error
finally thrown is the error raised by the last attempt. -/
theorem withRetry_exhaustion {ε α : Type} (fn : ℕ → Except ε α) (es : ℕ → ε)
    (hf : ∀ i, fn i = Except.error (es i)) (opts : RetryOptions)
    (hpos : 1 ≤ opts.maxRetries) :
    (withRetry fn opts).invocations = opts.maxRetries.toNat ∧
    (withRetry fn opts).result = Except.error (some (es (opts.maxRetries.toNat - 1))) ∧
    (withRetry fn opts).delays = (List.range (opts.maxRetries.toNat - 1)).map
      (fun j => if j = 0 then opts.initialDelay
        else min (opts.initialDelay * opts.backoffFactor ^ j) opts.maxDelay) := by
  obtain ⟨r, hr⟩ : ∃ r, opts.maxRetries.toNat = r + 1 :=
    ⟨opts.maxRetries.toNat - 1, by omega⟩
  unfold withRetry
  rw [hr, retryLoop_allFail fn es hf opts.maxDelay opts.backoffFactor r 0 opts.initialDelay none]
  refine ⟨rfl, ?_, ?_⟩
  · simp
  · simp [dSeq_eq_map]

/-- Closed instance of C2 at the default options with `fn i = error i`:
three invocations, delays `[1000, 2000]`, final thrown error `2`. -/
theorem withRetry_exhaustion_witness :
    (withRetry (fun i => (Except.error i : Except ℕ ℕ)) defaultRetryOptions).invocations = 3 ∧
    (withRetry (fun i => (Except.error i : Except ℕ ℕ)) defaultRetryOptions).result =
      Except.error (some 2) ∧
    (withRetry (fun i => (Except.error i : Except ℕ ℕ)) defaultRetryOptions).delays =
      [1000, 2000] := by
  have h := withRetry_exhaustion (fun i => (Except.error i : Except ℕ ℕ)) (fun i => i)
    (fun i => rfl) defaultRetryOptions (by decide)
  refine ⟨?_, ?_, ?_⟩
  · rw [h.1]
    decide
  · rw [h.2.1]
    exact rfl
  · rw [h.2.2]
    decide

/-- C3 counterexample: with `maxRetries = 2, initialDelay = 20000,
maxDelay = 10000` an always-failing action waits exactly one delay between
its two attempts, of 20000 ms, which exceeds `maxDelay = 10000`: the first
delay is the unclamped `initialDelay`, so the claim that no waited delay
ever exceeds `maxDelay` fails for configurations with
`initialDelay > maxDelay`. -/
theorem withRetry_first_delay_unclamped :
    (withRetry (fun i => (Except.error i : Except ℕ ℕ))
      ⟨2, 20000, 10000, 2⟩).delays = [20000] ∧ (10000 : ℕ) < 20000 := by
  constructor
  · decide
  · decide

/-- C3 (amended): the delay before the first retry is exactly
`initialDelay` (never clamped), and every delay waited after the first one
never exceeds `maxDelay`, regardless of attempt count. -/
theorem withRetry_delay_bounds {ε α : Type} (fn : ℕ → Except ε α) (opts : RetryOptions) :
    ((withRetry fn opts).delays.head?).getD opts.initialDelay = opts.initialDelay ∧
    ∀ x ∈ (withRetry fn opts).delays.tail, x ≤ opts.maxDelay := by
  unfold withRetry
  exact ⟨retryLoop_head fn opts.maxDelay opts.backoffFactor opts.maxRetries.toNat 0
      opts.initialDelay none,
    retryLoop_tail_le fn opts.maxDelay opts.backoffFactor opts.maxRetries.toNat 0
      opts.initialDelay none⟩

/-- Closed instance of the amended C3: under the default options with an
always-failing action, the first delay is 1000 ms and the one delay after
it, 2000 ms, is within `maxDelay`. -/
theorem withRetry_delay_bounds_witness :
    ((withRetry (fun i => (Except.error i : Except ℕ ℕ))
      defaultRetryOptions).delays.head?).getD defaultRetryOptions.initialDelay = 1000 ∧
    (2000 : ℕ) ≤ 10000 :=
  ⟨(withRetry_delay_bounds (fun i => (Except.error i : Except ℕ ℕ)) defaultRetryOptions).1,
   (withRetry_delay_bounds (fun i => (Except.error i : Except ℕ ℕ)) defaultRetryOptions).2
     2000 (by decide)⟩

/-- C6: for `1 ≤ k ≤ maxRetries`, an action failing on attempts
`1 .. k-1` and succeeding on attempt `k` makes `withRetry` return the
success value, with exactly `k` invocations and `k - 1` delays observed;
in particular an action succeeding on the first call is invoked exactly
once with no delay. -/
theorem withRetry_late_success {ε α : Type} (fn : ℕ → Except ε α) (v : α) (k : ℕ)
    (opts : RetryOptions) (hk1 : 1 ≤ k) (hk2 : (k : ℤ) ≤ opts.maxRetries)
    (hok : fn (k - 1) = Except.ok v)
    (hf : ∀ j, j < k - 1 → ∃ er, fn j = Except.error er) :
    (withRetry fn opts).result = Except.ok v ∧
    (withRetry fn opts).invocations = k ∧
    (withRetry fn opts).delays.length = k - 1 := by
  unfold withRetry
  have hm : k - 1 < opts.maxRetries.toNat := by omega
  rw [retryLoop_succAt fn v opts.maxDelay opts.backoffFactor (k - 1)
    opts.maxRetries.toNat 0 opts.initialDelay none hm (by simpa using hok)
    (by simpa using hf)]
  refine ⟨rfl, ?_, by simp [dSeq_length]⟩
  show k - 1 + 1 = k
  omega

/-- Closed instances of C6 at the default options: an immediately
succeeding action is invoked once with no delay (`k = 1`), and an action
failing once then succeeding is invoked twice with one delay (`k = 2`). -/
theorem withRetry_late_success_witness :
    (withRetry (fun _ => (Except.ok 42 : Except ℕ ℕ)) defaultRetryOptions).result =
      Except.ok 42 ∧
    (withRetry (fun _ => (Except.ok 42 : Except ℕ ℕ)) defaultRetryOptions).invocations = 1 ∧
    (withRetry (fun _ => (Except.ok 42 : Except ℕ ℕ)) defaultRetryOptions).delays.length = 0 ∧
    (withRetry (fun i => if i = 0 then Except.error 7 else (Except.ok 42 : Except ℕ ℕ))
      defaultRetryOptions).invocations = 2 ∧
    (withRetry (fun i => if i = 0 then Except.error 7 else (Except.ok 42 : Except ℕ ℕ))
      defaultRetryOptions).delays.length = 1 := by
  have h1 := withRetry_late_success (fun _ => (Except.ok 42 : Except ℕ ℕ)) 42 1
    defaultRetryOptions (by omega) (by decide) rfl
    (fun j hj => absurd hj (by omega))
  have h2 := withRetry_late_success
    (fun i => if i = 0 then Except.error 7 else (Except.ok 42 : Except ℕ ℕ)) 42 2
    defaultRetryOptions (by omega) (by decide) rfl
    (fun j hj => by
      have hj0 : j = 0 := by omega
      subst hj0
      exact ⟨7, rfl⟩)
  exact ⟨h1.1, h1.2.1, h1.2.2, h2.2.1, h2.2.2⟩

/-- C10: when `maxRetries ≤ 0` the for loop never runs, so the wrapped
action is never invoked, no delay is waited, and `withRetry` throws `null`
(the initial value of `lastError`), modelled as `Except.error none`. -/
theorem withRetry_nonpositive {ε α : Type} (fn : ℕ → Except ε α)
    (opts : RetryOptions) (h : opts.maxRetries ≤ 0) :
    (withRetry fn opts).invocations = 0 ∧
    (withRetry fn opts).result = Except.error none ∧
    (withRetry fn opts).delays = [] := by
  unfold withRetry
  have h0 : opts.maxRetries.toNat = 0 := by omega
  rw [h0]
  exact ⟨rfl, rfl, rfl⟩

/-- Closed instance of C10: `maxRetries = -1` with an action that would
succeed; the action is never called and `null` is thrown. -/
theorem withRetry_nonpositive_witness :
    (withRetry (fun _ => (Except.ok 5 : Except ℕ ℕ)) ⟨-1, 1000, 10000, 2⟩).invocations = 0 ∧
    (withRetry (fun _ => (Except.ok 5 : Except ℕ ℕ)) ⟨-1, 1000, 10000, 2⟩).result =
      Except.error none ∧
    (withRetry (fun _ => (Except.ok 5 : Except ℕ ℕ)) ⟨-1, 1000, 10000, 2⟩).delays = [] :=
  withRetry_nonpositive _ _ (by decide)

/-- C4: `isRateLimited` prunes the identity's timestamps to exactly those
strictly newer than `now - RATE_LIMIT_WINDOW` (window 60000 ms), persists
the pruned list, and returns `true` iff the pruned count is at least
`MAX_REQUESTS_PER_WINDOW` (threshold 10); an identity with no prior
entries is never limited. -/
theorem isRateLimited_window (now : ℤ) (log : RequestLog) (ip : String) :
    ((isRateLimited now log ip).1 = true ↔
      MAX_REQUESTS_PER_WINDOW ≤
        (((log ip).getD []).filter
          (fun time => decide (now - RATE_LIMIT_WINDOW < time))).length) ∧
    (isRateLimited now log ip).2 ip =
      some (((log ip).getD []).filter
        (fun time => decide (now - RATE_LIMIT_WINDOW < time))) ∧
    RATE_LIMIT_WINDOW = 60000 ∧
    MAX_REQUESTS_PER_WINDOW = 10 ∧
    (log ip = none → (isRateLimited now log ip).1 = false) := by
  refine ⟨?_, ?_, by decide, rfl, ?_⟩
  · simp [isRateLimited]
  · simp [isRateLimited]
  · intro h
    simp [isRateLimited, h, MAX_REQUESTS_PER_WINDOW]

/-- Closed instance of C4: an identity with no entry is not limited; an
identity with ten timestamps inside the trailing minute is limited. -/
theorem isRateLimited_window_witness :
    (isRateLimited 50000 emptyLog ipA).1 = false ∧
    (isRateLimited 100000 logTen ipA).1 = true :=
  ⟨(isRateLimited_window 50000 emptyLog ipA).2.2.2.2 rfl,
   (isRateLimited_window 100000 logTen ipA).1.mpr (by decide)⟩

/-- C5: the only mutation `isRateLimited` performs on the request log is
persisting the pruned list for the checked identity — even when it
returns true; the pruned list is a sublist of what was stored, so the
current request's timestamp is never appended by the check itself;
appending is the separate caller-driven step `recordRequest` of the
`POST` handler. -/
theorem isRateLimited_prune_only (now : ℤ) (log : RequestLog) (ip : String) :
    (isRateLimited now log ip).2 ip =
      some (((log ip).getD []).filter
        (fun time => decide (now - RATE_LIMIT_WINDOW < time))) ∧
    (∀ k, k ≠ ip → (isRateLimited now log ip).2 k = log k) ∧
    (((log ip).getD []).filter
      (fun time => decide (now - RATE_LIMIT_WINDOW < time))).Sublist ((log ip).getD []) ∧
    recordRequest now log ip ip = some ((log ip).getD [] ++ [now]) := by
  refine ⟨by simp [isRateLimited], ?_, List.filter_sublist _, by simp [recordRequest]⟩
  intro k hk
  simp [isRateLimited, hk]

/-- Closed instance of C5 at time 50000 on `logA`: pruning persists
`[1, 2, 3]` for `ipA`, leaves `ipB` untouched, and the caller's record
step is what appends 50000. -/
theorem isRateLimited_prune_only_witness :
    (isRateLimited 50000 logA ipA).2 ipB = logA ipB ∧
    (isRateLimited 50000 logA ipA).2 ipA = some [1, 2, 3] ∧
    recordRequest 50000 logA ipA ipA = some [1, 2, 3, 50000] := by
  have h := isRateLimited_prune_only 50000 logA ipA
  refine ⟨h.2.1 ipB (by decide), ?_, ?_⟩
  · rw [h.1]
    decide
  · rw [h.2.2.2]
    decide

/-- C8: timestamps recorded for an identity `X` never affect the verdict
of `isLimited(Y)` for `Y ≠ X` (the verdict depends only on `Y`'s own
entry), and a check for `X` never mutates `Y`'s entry. -/
theorem rateLimiter_independence (now : ℤ) (log log2 : RequestLog) (X Y : String)
    (hxy : Y ≠ X) (hagree : log Y = log2 Y) :
    (isRateLimited now log X).2 Y = log Y ∧
    (isRateLimited now log Y).1 = (isRateLimited now log2 Y).1 := by
  constructor
  · simp [isRateLimited, hxy]
  · simp only [isRateLimited, hagree]

/-- Closed instance of C8: the log holds three timestamps for `ipA` and
none for `ipB`; checking `ipA` leaves `ipB`'s entry unchanged, and
`ipB`'s verdict is the same as against the empty log. -/
theorem rateLimiter_independence_witness :
    (isRateLimited 50000 logA ipA).2 ipB = logA ipB ∧
    (isRateLimited 50000 logA ipB).1 = (isRateLimited 50000 emptyLog ipB).1 :=
  rateLimiter_independence 50000 logA emptyLog ipA ipB (by decide) (by decide)

end FactChecker
